import Mathlib

/-!
Shallow embedding of the Parkinsons-detection pipeline script
(`main.py`): a `Model` class that loads a CSV table, pre-processes it
(feature/label selection, min-max scaling to `[-1, 1]`, random 85/15
train/test split), trains an XGBoost classifier, and reports accuracy and
a confusion matrix; an outer driver repeats the pipeline `num_runs` times
and saves one result row per run to `xgboost_results.csv`.

Numeric values are modelled as exact rationals.  Sources of
nondeterminism (the random permutation behind `train_test_split`, the
fitted classifier `predict` oracle, wall-clock time) are threaded through as
explicit parameters.  The opaque boosting model is represented only by
its `predict` oracle; everything the script itself computes (column
selection, scaling, splitting, accuracy, confusion matrix, result rows,
the fatal missing-file path) is translated from the source.
-/

/-- In-memory table produced by `pd.read_csv`: a header of column names
and a list of numeric rows. -/
structure DataFrame where
  cols : List String
  rows : List (List ℚ)
deriving DecidableEq

/-- Boolean column mask `self.data.columns != status` (pandas builds a
mask over the column axis, one Boolean per column name). -/
def maskCols (cols : List String) (lbl : String) : List Bool :=
  cols.map (fun c => decide (c ≠ lbl))

/-- Row restricted to the columns whose mask entry is `true`, in order
(the effect of `.loc[:, mask]` on one row). -/
def applyMask (mask : List Bool) (row : List ℚ) : List ℚ :=
  ((mask.zip row).filter (fun p => p.1)).map (fun p => p.2)

/-- Value matrix of `self.data.loc[:, self.data.columns != status]`. -/
def locColsNe (df : DataFrame) (lbl : String) : List (List ℚ) :=
  df.rows.map (applyMask (maskCols df.cols lbl))

/-- Feature matrix `self.data.loc[:, self.data.columns != status].values[:, 1:]`:
all non-`status` columns, then the first remaining column dropped
positionally. -/
def featureMatrix (df : DataFrame) : List (List ℚ) :=
  (locColsNe df "status").map (List.drop 1)

/-- Position of the `status` column in the header. -/
def statusIdx (df : DataFrame) : ℕ :=
  df.cols.indexOf "status"

/-- Label vector `self.data.loc[:, status].values`: the `status` column,
one entry per row, aligned by row index. -/
def labelVector (df : DataFrame) : List ℚ :=
  df.rows.map (fun r => r.getD (statusIdx df) 0)

/-- Values of column `j`, one per row (`numpy` column extraction). -/
def colVals (rows : List (List ℚ)) (j : ℕ) : List ℚ :=
  rows.map (fun r => r.getD j 0)

/-- Minimum of a nonempty list, `0` on the empty list (`numpy` `min` along
an axis). -/
def listMin : List ℚ → ℚ
  | [] => 0
  | a :: l => l.foldl min a

/-- Maximum of a nonempty list, `0` on the empty list (`numpy` `max` along
an axis). -/
def listMax : List ℚ → ℚ
  | [] => 0
  | a :: l => l.foldl max a

/-- Observed minimum of column `j` (`MinMaxScaler.data_min_`). -/
def colMin (rows : List (List ℚ)) (j : ℕ) : ℚ :=
  listMin (colVals rows j)

/-- Observed maximum of column `j` (`MinMaxScaler.data_max_`). -/
def colMax (rows : List (List ℚ)) (j : ℕ) : ℚ :=
  listMax (colVals rows j)

/-- the sklearn helper `_handle_zeros_in_scale`: a zero range is replaced by `1`
so that constant columns do not divide by zero. -/
def handleZeros (s : ℚ) : ℚ :=
  if s = 0 then 1 else s

/-- One entry scaled by `MinMaxScaler((-1, 1))`: with
`scale = (1 - (-1)) / handleZeros (dmax - dmin)` the transform is
`v * scale + ((-1) - dmin * scale)`. -/
def mmScaleEntry (dmin dmax v : ℚ) : ℚ :=
  let scale := 2 / handleZeros (dmax - dmin)
  v * scale + (-1 - dmin * scale)

/-- `MinMaxScaler((-1, 1)).fit_transform` on a matrix: parameters are fit
per column over the whole matrix, then applied entrywise. -/
def fit_transform (rows : List (List ℚ)) : List (List ℚ) :=
  rows.map (fun r =>
    (List.range r.length).map (fun j =>
      mmScaleEntry (colMin rows j) (colMax rows j) (r.getD j 0)))

/-- Test-set size chosen by `train_test_split(..., test_size=0.15)`:
`ceil(0.15 * n)` computed on naturals. -/
def nTest (n : ℕ) : ℕ :=
  (15 * n + 99) / 100

/-- `train_test_split(x, y, test_size=0.15)`: the shuffled index order is
the explicit permutation `perm`; the first `nTest` shuffled indices form
the test set and the rest the training set.  Returns
`(x_train, x_test, y_train, y_test)`. -/
def train_test_split (x : List (List ℚ)) (y : List ℚ) (perm : List ℕ) :
    List (List ℚ) × List (List ℚ) × List ℚ × List ℚ :=
  let nt := nTest x.length
  let testIdx := perm.take nt
  let trainIdx := perm.drop nt
  (trainIdx.map (fun i => x.getD i []),
   testIdx.map (fun i => x.getD i []),
   trainIdx.map (fun i => y.getD i 0),
   testIdx.map (fun i => y.getD i 0))

/-- sklearn `accuracy_score`: fraction of positions where prediction and
truth agree, with the length of the truth vector as denominator. -/
def accuracy_score (y_true y_pred : List ℚ) : ℚ :=
  (((y_true.zip y_pred).countP (fun z => decide (z.1 = z.2))) : ℚ) / y_true.length

/-- Sorted distinct label values observed in truth or prediction
(`numpy.unique` over both arrays), as used by the sklearn
`confusion_matrix`. -/
def cmLabels (y_true y_pred : List ℚ) : List ℚ :=
  (y_true ++ y_pred).toFinset.sort (· ≤ ·)

/-- sklearn `confusion_matrix`: cell `(i, j)` counts the test rows whose
actual label is the `i`-th distinct value and whose predicted label is
the `j`-th. -/
def confusion_matrix (y_true y_pred : List ℚ) : List (List ℕ) :=
  (cmLabels y_true y_pred).map (fun a =>
    (cmLabels y_true y_pred).map (fun b =>
      (y_true.zip y_pred).countP (fun z => decide (z.1 = a ∧ z.2 = b))))

/-- State of the `Model` class: the loaded table plus the attributes that
`pre_process` and `train` assign. -/
structure Model where
  data : DataFrame
  x : List (List ℚ) := []
  y : List ℚ := []
  x_train : List (List ℚ) := []
  x_test : List (List ℚ) := []
  y_train : List ℚ := []
  y_test : List ℚ := []
  y_pred : List ℚ := []
  accuracy : ℚ := 0
deriving DecidableEq

/-- Successful `Model.__init__`: stores the parsed table, all other
attributes unset. -/
def Model.init (df : DataFrame) : Model :=
  { data := df }

/-- `Model.pre_process`: build the feature matrix and label vector from
the table, min-max scale the features on the whole matrix, then split
rows into train and test sets along the permutation `perm`. -/
def Model.pre_process (perm : List ℕ) (s : Model) : Model :=
  let x0 := featureMatrix s.data
  let y0 := labelVector s.data
  let x1 := fit_transform x0
  let split := train_test_split x1 y0 perm
  { s with
    x := x1, y := y0,
    x_train := split.1, x_test := split.2.1,
    y_train := split.2.2.1, y_test := split.2.2.2 }

/-- `Model.train`: the fitted classifier is abstracted by its `predict`
oracle; the method records the test-set predictions and the accuracy
`accuracy_score(y_test, y_pred) * 100`. -/
def Model.train (predict : List (List ℚ) → List ℚ) (s : Model) : Model :=
  let yp := predict s.x_test
  { s with y_pred := yp, accuracy := accuracy_score s.y_test yp * 100 }

/-- Python `"%d" % a` formatting on a float: conversion to `int` truncates toward
zero. -/
def pyFormatD (a : ℚ) : ℤ :=
  if 0 ≤ a then ⌊a⌋ else ⌈a⌉

/-- One result row `results_arr = [run, parkinsons.accuracy, time_len]`. -/
def results_arr (run : ℕ) (accuracy time_len : ℚ) : List ℚ :=
  [(run : ℚ), accuracy, time_len]

/-- Observable actions of the process: a read of the dataset file, a
printed error line, the printed integer accuracy, and a written output
file. -/
inductive Event where
  | load : Event
  | printErr (msg : String) : Event
  | printAcc (v : ℤ) : Event
  | writeFile (name : String) (rows : List (List ℚ)) : Event
deriving DecidableEq

/-- Recogniser for dataset-file reads. -/
def Event.isLoad : Event → Bool
  | .load => true
  | _ => false

/-- Recogniser for output-file writes. -/
def Event.isWrite : Event → Bool
  | .writeFile _ _ => true
  | _ => false

/-- Outcome of one process execution: exit code plus the ordered trace of
observable events. -/
structure ExecResult where
  exitCode : ℕ
  events : List Event
deriving DecidableEq

/-- One loop iteration of `__main__`: construct the `Model`, pre-process,
train. -/
def runOnce (df : DataFrame) (perm : List ℕ)
    (predict : List (List ℚ) → List ℚ) : Model :=
  Model.train predict (Model.pre_process perm (Model.init df))

/-- The `__main__` driver.  `file` is the parse result of
`data/parkinsons.data` (`none` when missing or unparsable); `perm`,
`predict` and `tlen` supply the split permutation of each run, fitted
predictor and wall-clock duration.  On a missing file the first loop
iteration `Model()` constructor call prints the error and exits with code 1
before anything is written; otherwise every run loads the file, prints
the `%d`-formatted accuracy, and `np.savetxt` writes all result rows once
at the end. -/
def mainDriver (file : Option DataFrame) (num_runs : ℕ)
    (perm : ℕ → List ℕ) (predict : ℕ → List (List ℚ) → List ℚ)
    (tlen : ℕ → ℚ) : ExecResult :=
  match file with
  | none =>
      if num_runs = 0 then
        { exitCode := 0, events := [Event.writeFile "xgboost_results.csv" []] }
      else
        { exitCode := 1,
          events := [Event.load, Event.printErr "parkinsons.data not found"] }
  | some df =>
      let results := (List.range num_runs).map (fun run =>
        results_arr run (runOnce df (perm run) (predict run)).accuracy (tlen run))
      let evs := (List.range num_runs).map (fun run =>
        [Event.load, Event.printAcc (pyFormatD (runOnce df (perm run) (predict run)).accuracy)])
      { exitCode := 0,
        events := evs.flatten ++ [Event.writeFile "xgboost_results.csv" results] }

/-- Concrete five-row table used to instantiate theorems: an identifier
column, two feature columns, and the `status` label column. -/
def dfW : DataFrame :=
  { cols := ["name", "f1", "f2", "status"],
    rows := [[10, 2, 3, 1], [11, 4, 6, 0], [12, 5, 1, 1], [13, 0, 2, 0], [14, 8, 4, 1]] }

/-- Auxiliary: counting matches inside a flattened run-indexed event list,
`c` matches arising per run. -/
lemma aux_countP_flatten_range {α : Type} (g : ℕ → List α) (p : α → Bool) (c : ℕ)
    (h : ∀ k, (g k).countP p = c) :
    ∀ n : ℕ, (((List.range n).map g).flatten).countP p = n * c := by
  intro n
  induction n with
  | zero => simp
  | succ m ih =>
      rw [List.range_succ, List.map_append, List.flatten_append, List.countP_append, ih]
      simp [h, Nat.succ_mul]

/-- C1: when the input file is missing or unparsable the process prints
the missing-file message and terminates with exit code 1 without writing
any output file; on normal completion the exit code is 0. -/
theorem claim_C1 (nr : ℕ) (perm : ℕ → List ℕ) (predict : ℕ → List (List ℚ) → List ℚ)
    (tlen : ℕ → ℚ) (h : 0 < nr) :
    (mainDriver none nr perm predict tlen).exitCode = 1 ∧
    Event.printErr "parkinsons.data not found" ∈ (mainDriver none nr perm predict tlen).events ∧
    (∀ e ∈ (mainDriver none nr perm predict tlen).events, e.isWrite = false) ∧
    (∀ df, (mainDriver (some df) nr perm predict tlen).exitCode = 0) := by
  have hne : nr ≠ 0 := by omega
  refine ⟨?_, ?_, ?_, ?_⟩
  · simp [mainDriver, hne]
  · simp [mainDriver, hne]
  · intro e he
    simp only [mainDriver, hne, if_false, List.mem_cons, List.mem_singleton,
      List.not_mem_nil, or_false] at he
    rcases he with h1 | h1 <;> subst h1 <;> rfl
  · intro df; rfl

/-- Witness for C1 at `num_runs = 1` and trivial oracles. -/
theorem claim_C1_witness :
    (mainDriver none 1 (fun _ => []) (fun _ _ => []) (fun _ => 0)).exitCode = 1 ∧
    Event.printErr "parkinsons.data not found" ∈
      (mainDriver none 1 (fun _ => []) (fun _ _ => []) (fun _ => 0)).events ∧
    (∀ e ∈ (mainDriver none 1 (fun _ => []) (fun _ _ => []) (fun _ => 0)).events,
      e.isWrite = false) ∧
    (∀ df, (mainDriver (some df) 1 (fun _ => []) (fun _ _ => []) (fun _ => 0)).exitCode = 0) :=
  claim_C1 1 (fun _ => []) (fun _ _ => []) (fun _ => 0) (by decide)

/-- C2 counterexample: with `num_runs = 2` the dataset file is read twice
in one process (the `Model()` constructor runs inside the loop), refuting
"loaded exactly once per process". -/
theorem claim_C2_counterexample :
    (mainDriver (some dfW) 2 (fun _ => [4, 0, 1, 2, 3]) (fun _ _ => [1])
      (fun _ => 1)).events.countP Event.isLoad = 2 ∧ (2 : ℕ) ≠ 1 := by
  exact ⟨by decide, by decide⟩

/-- C2 amended: the dataset table is loaded once per run (`num_runs`
times per process, not once); feature/label arrays, splits and the model
are rebuilt from the freshly loaded table on each run; and the result
records are flushed in a single write at the very end. -/
theorem claim_C2_amended (df : DataFrame) (nr : ℕ) (perm : ℕ → List ℕ)
    (predict : ℕ → List (List ℚ) → List ℚ) (tlen : ℕ → ℚ) :
    (mainDriver (some df) nr perm predict tlen).events.countP Event.isLoad = nr ∧
    (mainDriver (some df) nr perm predict tlen).events.countP Event.isWrite = 1 ∧
    (mainDriver (some df) nr perm predict tlen).events.getLast? =
      some (Event.writeFile "xgboost_results.csv"
        ((List.range nr).map (fun run =>
          results_arr run (runOnce df (perm run) (predict run)).accuracy (tlen run)))) := by
  refine ⟨?_, ?_, ?_⟩
  · simp only [mainDriver]
    rw [List.countP_append,
      aux_countP_flatten_range _ Event.isLoad 1 (fun k => by rfl) nr]
    simp [List.countP_cons, List.countP_nil, Event.isLoad]
  · simp only [mainDriver]
    rw [List.countP_append,
      aux_countP_flatten_range _ Event.isWrite 0 (fun k => by rfl) nr]
    simp [List.countP_cons, List.countP_nil, Event.isWrite]
  · simp only [mainDriver]
    exact List.getLast?_concat _

/-- C8: on a normal completion the output file is written exactly once,
as the last action, with no header and one three-field row per run whose
first fields are the run indices `0, 1, ..., num_runs - 1` in order; the
remaining fields are the accuracy percentage of that run and elapsed time. -/
theorem claim_C8 (df : DataFrame) (nr : ℕ) (perm : ℕ → List ℕ)
    (predict : ℕ → List (List ℚ) → List ℚ) (tlen : ℕ → ℚ) :
    ∃ rows : List (List ℚ),
      (mainDriver (some df) nr perm predict tlen).events.getLast? =
        some (Event.writeFile "xgboost_results.csv" rows) ∧
      (mainDriver (some df) nr perm predict tlen).events.countP Event.isWrite = 1 ∧
      rows.length = nr ∧
      (∀ r ∈ rows, r.length = 3) ∧
      (∀ i, i < nr → rows.getD i [] =
        [(i : ℚ), (runOnce df (perm i) (predict i)).accuracy, tlen i]) ∧
      rows.map (fun r => r.getD 0 0) = (List.range nr).map (fun i : ℕ => (i : ℚ)) := by
  refine ⟨(List.range nr).map (fun run =>
      results_arr run (runOnce df (perm run) (predict run)).accuracy (tlen run)),
    ?_, ?_, ?_, ?_, ?_, ?_⟩
  · simp only [mainDriver]
    exact List.getLast?_concat _
  · simp only [mainDriver]
    rw [List.countP_append,
      aux_countP_flatten_range _ Event.isWrite 0 (fun k => by rfl) nr]
    simp [List.countP_cons, List.countP_nil, Event.isWrite]
  · simp
  · intro r hr
    simp only [List.mem_map] at hr
    obtain ⟨a, _, rfl⟩ := hr
    rfl
  · intro i hi
    have hi2 : i < ((List.range nr).map (fun run =>
        results_arr run (runOnce df (perm run) (predict run)).accuracy (tlen run))).length := by
      simpa using hi
    rw [List.getD_eq_getElem _ _ hi2, List.getElem_map]
    simp [results_arr]
  · rw [List.map_map]
    exact List.map_congr_left (fun a _ => rfl)

/-- C9: neither `pre_process` nor `train` (nor their composition, the
per-run pipeline) modifies the loaded dataset table; they only read
`self.data` and assign other attributes. -/
theorem claim_C9 (perm : List ℕ) (predict : List (List ℚ) → List ℚ) (s : Model) :
    (Model.pre_process perm s).data = s.data ∧
    (Model.train predict s).data = s.data ∧
    (Model.train predict (Model.pre_process perm s)).data = s.data :=
  ⟨rfl, rfl, rfl⟩

/-- Auxiliary: indexing a list at `0, ..., length - 1` reproduces it. -/
lemma aux_getD_range_map {α : Type} (l : List α) (d : α) :
    (List.range l.length).map (fun i => l.getD i d) = l := by
  apply List.ext_getElem
  · simp
  · intro i h1 h2
    rw [List.getElem_map, List.getElem_range, List.getD_eq_getElem _ _ h2]

/-- Auxiliary: rows gathered along the two halves of a permutation of the
index range are a permutation of the original list. -/
lemma aux_split_perm {α : Type} (l : List α) (d : α) (perm : List ℕ) (nt : ℕ)
    (hperm : perm.Perm (List.range l.length)) :
    ((perm.take nt).map (fun i => l.getD i d) ++
      (perm.drop nt).map (fun i => l.getD i d)).Perm l := by
  rw [← List.map_append, List.take_append_drop]
  have h := hperm.map (fun i => l.getD i d)
  rwa [aux_getD_range_map] at h

/-- Auxiliary: the two halves of a duplicate-free list are disjoint. -/
lemma aux_take_disjoint {α : Type} (l : List α) (n : ℕ) (h : l.Nodup) :
    (l.take n).Disjoint (l.drop n) := by
  rw [← List.take_append_drop n l] at h
  exact (List.nodup_append.mp h).2.2

/-- Auxiliary: the test-set size never exceeds the number of rows. -/
lemma aux_nTest_le (n : ℕ) : nTest n ≤ n := by
  simp only [nTest]
  omega

/-- Auxiliary: `ceil(0.15 n)` differs from `round(0.15 n)` by at most 1. -/
lemma aux_nTest_round (n : ℕ) :
    |(nTest n : ℤ) - round ((15 * (n : ℚ)) / 100)| ≤ 1 := by
  have h100 : (0 : ℚ) < 100 := by norm_num
  set q : ℕ := 15 * n / 100 with hq
  have hq1 : 100 * q ≤ 15 * n := by omega
  have hq2 : 15 * n < 100 * (q + 1) := by omega
  have hcast1 : ((100 * q : ℕ) : ℚ) ≤ ((15 * n : ℕ) : ℚ) := Nat.cast_le.mpr hq1
  have hcast2 : ((15 * n : ℕ) : ℚ) < ((100 * (q + 1) : ℕ) : ℚ) := Nat.cast_lt.mpr hq2
  push_cast at hcast1 hcast2
  have hqle : (q : ℚ) ≤ 15 * (n : ℚ) / 100 := by
    rw [le_div_iff₀ h100]
    linarith
  have hqlt : 15 * (n : ℚ) / 100 < (q : ℚ) + 1 := by
    rw [div_lt_iff₀ h100]
    linarith
  have hrlb : (q : ℤ) ≤ round ((15 * (n : ℚ)) / 100) := by
    rw [round_eq]
    apply Int.le_floor.mpr
    push_cast
    linarith
  have hrub : round ((15 * (n : ℚ)) / 100) ≤ (q : ℤ) + 1 := by
    rw [round_eq]
    have hlt : ⌊(15 * (n : ℚ)) / 100 + 1 / 2⌋ < (q : ℤ) + 2 := by
      apply Int.floor_lt.mpr
      push_cast
      linarith
    omega
  have hn1 : q ≤ nTest n := by
    simp only [nTest]
    omega
  have hn2 : nTest n ≤ q + 1 := by
    simp only [nTest]
    omega
  rw [abs_le]
  constructor <;> omega

/-- C3: the train/test split is a row-wise partition of `(X, y)` — test
and train index halves are disjoint, gathering both halves permutes the
full scaled matrix (and label vector), the test-set size is
`ceil(0.15 N)` rows, and that size is within 1 of `round(0.15 N)`. -/
theorem claim_C3 (s : Model) (perm : List ℕ)
    (hperm : perm.Perm (List.range (featureMatrix s.data).length)) :
    ((Model.pre_process perm s).x_test ++ (Model.pre_process perm s).x_train).Perm
      (Model.pre_process perm s).x ∧
    ((Model.pre_process perm s).y_test ++ (Model.pre_process perm s).y_train).Perm
      (Model.pre_process perm s).y ∧
    (perm.take (nTest (featureMatrix s.data).length)).Disjoint
      (perm.drop (nTest (featureMatrix s.data).length)) ∧
    (Model.pre_process perm s).x_test.length = nTest (featureMatrix s.data).length ∧
    |(nTest (featureMatrix s.data).length : ℤ) -
      round ((15 * ((featureMatrix s.data).length : ℚ)) / 100)| ≤ 1 := by
  have hx1len : (fit_transform (featureMatrix s.data)).length =
      (featureMatrix s.data).length := by
    simp [fit_transform]
  have hylen : (labelVector s.data).length = (featureMatrix s.data).length := by
    simp [labelVector, featureMatrix, locColsNe]
  have hpermN : perm.length = (featureMatrix s.data).length := by
    simpa using hperm.length_eq
  have hnodup : perm.Nodup := (hperm.nodup_iff).mpr (List.nodup_range _)
  simp only [Model.pre_process, train_test_split, hx1len]
  refine ⟨?_, ?_, ?_, ?_, aux_nTest_round _⟩
  · exact aux_split_perm _ [] perm _ (by rwa [hx1len])
  · exact aux_split_perm _ 0 perm _ (by rwa [hylen])
  · exact aux_take_disjoint perm _ hnodup
  · rw [List.length_map, List.length_take, hpermN]
    exact min_eq_left (aux_nTest_le _)

/-- Witness for C3 on the five-row table `dfW` with a concrete shuffle. -/
theorem claim_C3_witness :
    ((Model.pre_process [4, 0, 1, 2, 3] (Model.init dfW)).x_test ++
      (Model.pre_process [4, 0, 1, 2, 3] (Model.init dfW)).x_train).Perm
      (Model.pre_process [4, 0, 1, 2, 3] (Model.init dfW)).x ∧
    ((Model.pre_process [4, 0, 1, 2, 3] (Model.init dfW)).y_test ++
      (Model.pre_process [4, 0, 1, 2, 3] (Model.init dfW)).y_train).Perm
      (Model.pre_process [4, 0, 1, 2, 3] (Model.init dfW)).y ∧
    (([4, 0, 1, 2, 3] : List ℕ).take (nTest (featureMatrix dfW).length)).Disjoint
      (([4, 0, 1, 2, 3] : List ℕ).drop (nTest (featureMatrix dfW).length)) ∧
    (Model.pre_process [4, 0, 1, 2, 3] (Model.init dfW)).x_test.length =
      nTest (featureMatrix dfW).length ∧
    |(nTest (featureMatrix dfW).length : ℤ) -
      round ((15 * ((featureMatrix dfW).length : ℚ)) / 100)| ≤ 1 :=
  claim_C3 (Model.init dfW) [4, 0, 1, 2, 3] (by decide)

/-- Auxiliary: selecting columns through the Boolean mask
`columns != lbl` is the same as filtering the (name, value) pairs by
name. -/
lemma aux_applyMask_eq (cols : List String) (lbl : String) (r : List ℚ) :
    applyMask (maskCols cols lbl) r =
      ((cols.zip r).filter (fun p => decide (p.1 ≠ lbl))).map (fun p => p.2) := by
  unfold applyMask maskCols
  rw [List.zip_map_left, List.filter_map, List.map_map]
  rfl

/-- C4: the raw feature matrix selects, row by row, the values of all
columns other than `status` and then drops the first remaining
(identifier) column positionally; the label vector is exactly the
`status` column, aligned by row index with the features. -/
theorem claim_C4 (df : DataFrame) (hmem : "status" ∈ df.cols) :
    featureMatrix df = df.rows.map (fun r =>
      (((df.cols.zip r).filter (fun p => decide (p.1 ≠ "status"))).map
        (fun p => p.2)).drop 1) ∧
    (labelVector df).length = df.rows.length ∧
    (∀ i, i < df.rows.length →
      (labelVector df).getD i 0 = (df.rows.getD i []).getD (statusIdx df) 0) ∧
    df.cols.getD (statusIdx df) "" = "status" := by
  refine ⟨?_, ?_, ?_, ?_⟩
  · unfold featureMatrix locColsNe
    rw [List.map_map]
    apply List.map_congr_left
    intro r _
    simp only [Function.comp]
    rw [aux_applyMask_eq]
  · simp [labelVector]
  · intro i hi
    have hi2 : i < (labelVector df).length := by simpa [labelVector] using hi
    rw [List.getD_eq_getElem _ _ hi2, List.getD_eq_getElem _ _ hi]
    simp [labelVector]
  · have hlt : df.cols.indexOf "status" < df.cols.length :=
      List.indexOf_lt_length.mpr hmem
    simp only [statusIdx]
    rw [List.getD_eq_getElem _ _ hlt, List.getElem_indexOf]

/-- Witness for C4 at the concrete table `dfW`. -/
theorem claim_C4_witness :
    featureMatrix dfW = dfW.rows.map (fun r =>
      (((dfW.cols.zip r).filter (fun p => decide (p.1 ≠ "status"))).map
        (fun p => p.2)).drop 1) ∧
    (labelVector dfW).length = dfW.rows.length ∧
    (∀ i, i < dfW.rows.length →
      (labelVector dfW).getD i 0 = (dfW.rows.getD i []).getD (statusIdx dfW) 0) ∧
    dfW.cols.getD (statusIdx dfW) "" = "status" :=
  claim_C4 dfW (by decide)

/-- Auxiliary: a `min`-fold lower-bounds its seed and every element. -/
lemma aux_foldl_min_le (l : List ℚ) (a : ℚ) :
    l.foldl min a ≤ a ∧ ∀ x ∈ l, l.foldl min a ≤ x := by
  induction l generalizing a with
  | nil => simp
  | cons b l ih =>
      obtain ⟨h1, h2⟩ := ih (min a b)
      refine ⟨le_trans h1 (min_le_left a b), ?_⟩
      intro x hx
      rcases List.mem_cons.mp hx with rfl | hx
      · exact le_trans h1 (min_le_right a x)
      · exact h2 x hx

/-- Auxiliary: a `max`-fold upper-bounds its seed and every element. -/
lemma aux_le_foldl_max (l : List ℚ) (a : ℚ) :
    a ≤ l.foldl max a ∧ ∀ x ∈ l, x ≤ l.foldl max a := by
  induction l generalizing a with
  | nil => simp
  | cons b l ih =>
      obtain ⟨h1, h2⟩ := ih (max a b)
      refine ⟨le_trans (le_max_left a b) h1, ?_⟩
      intro x hx
      rcases List.mem_cons.mp hx with rfl | hx
      · exact le_trans (le_max_right a x) h1
      · exact h2 x hx

/-- Auxiliary: `listMin` bounds every member from below. -/
lemma aux_listMin_le (l : List ℚ) (x : ℚ) (hx : x ∈ l) : listMin l ≤ x := by
  cases l with
  | nil => cases hx
  | cons a l =>
      rcases List.mem_cons.mp hx with rfl | h
      · exact (aux_foldl_min_le l x).1
      · exact (aux_foldl_min_le l a).2 x h

/-- Auxiliary: `listMax` bounds every member from above. -/
lemma aux_le_listMax (l : List ℚ) (x : ℚ) (hx : x ∈ l) : x ≤ listMax l := by
  cases l with
  | nil => cases hx
  | cons a l =>
      rcases List.mem_cons.mp hx with rfl | h
      · exact (aux_le_foldl_max l x).1
      · exact (aux_le_foldl_max l a).2 x h

/-- Auxiliary: a min-max-scaled value stays in `[-1, 1]` whenever the
input lies between the fitted column minimum and maximum. -/
lemma aux_mm_bounds (dmin dmax v : ℚ) (h1 : dmin ≤ v) (h2 : v ≤ dmax) :
    -1 ≤ mmScaleEntry dmin dmax v ∧ mmScaleEntry dmin dmax v ≤ 1 := by
  by_cases hz : dmax - dmin = 0
  · have hv : v = dmin := le_antisymm (by linarith) h1
    subst hv
    simp only [mmScaleEntry, handleZeros, hz, if_pos]
    constructor <;> norm_num
  · have hpos : 0 < dmax - dmin := by
      rcases lt_or_eq_of_le (le_trans h1 h2) with h | h
      · linarith
      · exact absurd (by rw [h]; ring) hz
    have heq : mmScaleEntry dmin dmax v = 2 * ((v - dmin) / (dmax - dmin)) - 1 := by
      simp only [mmScaleEntry, handleZeros, hz, if_neg, if_false]
      ring
    have hd1 : 0 ≤ (v - dmin) / (dmax - dmin) := div_nonneg (by linarith) (le_of_lt hpos)
    have hd2 : (v - dmin) / (dmax - dmin) ≤ 1 := (div_le_one hpos).mpr (by linarith)
    rw [heq]
    constructor <;> linarith

/-- Auxiliary: on a column with strictly positive range the fitted
minimum scales to `-1` and the fitted maximum to `1`. -/
lemma aux_mm_endpoints (dmin dmax : ℚ) (h : dmin < dmax) :
    mmScaleEntry dmin dmax dmin = -1 ∧ mmScaleEntry dmin dmax dmax = 1 := by
  have hz : dmax - dmin ≠ 0 := sub_ne_zero.mpr (ne_of_gt h)
  constructor
  · simp only [mmScaleEntry, handleZeros, hz, if_neg, if_false]
    ring
  · simp only [mmScaleEntry, handleZeros, hz, if_neg, if_false]
    field_simp
    ring

/-- Auxiliary: entry `(i, j)` of the scaled matrix in terms of the raw
entry and the fitted column parameters. -/
lemma aux_ft_entry (rows : List (List ℚ)) (i j : ℕ) (hi : i < rows.length)
    (hj : j < (rows.getD i []).length) :
    ((fit_transform rows).getD i []).getD j 0 =
      mmScaleEntry (colMin rows j) (colMax rows j) ((rows.getD i []).getD j 0) := by
  rw [List.getD_eq_getElem rows [] hi] at hj ⊢
  have hi2 : i < (fit_transform rows).length := by
    simpa [fit_transform] using hi
  rw [List.getD_eq_getElem _ _ hi2]
  simp only [fit_transform, List.getElem_map]
  have hj2 : j < ((List.range rows[i].length).map (fun k =>
      mmScaleEntry (colMin rows k) (colMax rows k) (rows[i].getD k 0))).length := by
    simpa using hj
  rw [List.getD_eq_getElem _ _ hj2, List.getElem_map, List.getElem_range]

/-- Auxiliary: entry `(i, j)` of the raw matrix is among the values the
scaler fitted column `j` on. -/
lemma aux_entry_mem_colVals (rows : List (List ℚ)) (i j : ℕ) (hi : i < rows.length) :
    (rows.getD i []).getD j 0 ∈ colVals rows j := by
  rw [List.getD_eq_getElem rows [] hi]
  exact List.mem_map.mpr ⟨rows[i], List.getElem_mem hi, rfl⟩

/-- C5 counterexample: on the constant one-column matrix `[[0], [0]]` the
observed column maximum is `0`, yet its scaled value is `-1`, not `1` —
the sklearn `MinMaxScaler` sends a zero-range column to the low end of the
feature range, refuting the claim that the observed maximum of every column maps to 1. -/
theorem claim_C5_counterexample :
    colMax [[(0 : ℚ)], [0]] 0 = 0 ∧
    (([[(0 : ℚ)], [0]].getD 0 []).getD 0 0) = 0 ∧
    ((fit_transform [[(0 : ℚ)], [0]]).getD 0 []).getD 0 0 = -1 ∧
    ((-1 : ℚ) ≠ 1) := by
  refine ⟨?_, by norm_num, ?_, by norm_num⟩
  · norm_num [colMax, colVals, listMax]
  · norm_num [fit_transform, mmScaleEntry, handleZeros, colMin, colMax, colVals,
      listMin, listMax, List.range_succ]

/-- C5 amended: every scaled entry lies in `[-1, 1]`; for a column whose
observed maximum strictly exceeds its observed minimum, the minimum
scales to `-1` and the maximum to `1`; a constant (zero-range) column
scales entirely to `-1`. -/
theorem claim_C5_amended (rows : List (List ℚ)) (i j : ℕ) (hi : i < rows.length)
    (hj : j < (rows.getD i []).length) :
    (-1 ≤ ((fit_transform rows).getD i []).getD j 0 ∧
      ((fit_transform rows).getD i []).getD j 0 ≤ 1) ∧
    (colMin rows j < colMax rows j →
      mmScaleEntry (colMin rows j) (colMax rows j) (colMin rows j) = -1 ∧
      mmScaleEntry (colMin rows j) (colMax rows j) (colMax rows j) = 1) ∧
    (colMin rows j = colMax rows j →
      ((fit_transform rows).getD i []).getD j 0 = -1) := by
  have hmem := aux_entry_mem_colVals rows i j hi
  have hlo : colMin rows j ≤ (rows.getD i []).getD j 0 :=
    aux_listMin_le _ _ hmem
  have hhi : (rows.getD i []).getD j 0 ≤ colMax rows j :=
    aux_le_listMax _ _ hmem
  rw [aux_ft_entry rows i j hi hj]
  refine ⟨aux_mm_bounds _ _ _ hlo hhi, aux_mm_endpoints _ _, ?_⟩
  intro hconst
  have hv : (rows.getD i []).getD j 0 = colMin rows j := by
    rw [hconst] at hlo ⊢
    exact le_antisymm hhi hlo
  rw [hv, hconst]
  simp only [mmScaleEntry, handleZeros, sub_self, if_pos]
  ring

/-- Witness for C5 (amended) at entry `(0, 0)` of the matrix `[[0], [1]]`. -/
theorem claim_C5_witness :
    (-1 ≤ ((fit_transform [[(0 : ℚ)], [1]]).getD 0 []).getD 0 0 ∧
      ((fit_transform [[(0 : ℚ)], [1]]).getD 0 []).getD 0 0 ≤ 1) ∧
    (colMin [[(0 : ℚ)], [1]] 0 < colMax [[(0 : ℚ)], [1]] 0 →
      mmScaleEntry (colMin [[(0 : ℚ)], [1]] 0) (colMax [[(0 : ℚ)], [1]] 0)
        (colMin [[(0 : ℚ)], [1]] 0) = -1 ∧
      mmScaleEntry (colMin [[(0 : ℚ)], [1]] 0) (colMax [[(0 : ℚ)], [1]] 0)
        (colMax [[(0 : ℚ)], [1]] 0) = 1) ∧
    (colMin [[(0 : ℚ)], [1]] 0 = colMax [[(0 : ℚ)], [1]] 0 →
      ((fit_transform [[(0 : ℚ)], [1]]).getD 0 []).getD 0 0 = -1) :=
  claim_C5_amended [[(0 : ℚ)], [1]] 0 0 (by norm_num) (by norm_num)

/-- C6: `train` produces one point prediction per test row, the recorded
accuracy is the matching fraction scaled to a percentage, and that
percentage always lies in `[0, 100]`. -/
theorem claim_C6 (predict : List (List ℚ) → List ℚ) (s : Model)
    (hp : ∀ m, (predict m).length = m.length) (h0 : 0 < s.y_test.length) :
    (Model.train predict s).y_pred.length = s.x_test.length ∧
    (Model.train predict s).accuracy =
      (((s.y_test.zip (predict s.x_test)).countP
        (fun z => decide (z.1 = z.2)) : ℚ) / (s.y_test.length : ℚ)) * 100 ∧
    0 ≤ (Model.train predict s).accuracy ∧
    (Model.train predict s).accuracy ≤ 100 := by
  have hlen : (0 : ℚ) < (s.y_test.length : ℚ) := by exact_mod_cast h0
  have hcount : (s.y_test.zip (predict s.x_test)).countP
      (fun z => decide (z.1 = z.2)) ≤ s.y_test.length := by
    refine le_trans (List.countP_le_length _) ?_
    rw [List.length_zip]
    exact min_le_left _ _
  have hacc : (Model.train predict s).accuracy =
      accuracy_score s.y_test (predict s.x_test) * 100 := rfl
  have h1 : 0 ≤ accuracy_score s.y_test (predict s.x_test) :=
    div_nonneg (Nat.cast_nonneg _) (Nat.cast_nonneg _)
  have h2 : accuracy_score s.y_test (predict s.x_test) ≤ 1 := by
    unfold accuracy_score
    exact (div_le_one hlen).mpr (by exact_mod_cast hcount)
  refine ⟨hp _, rfl, ?_, ?_⟩
  · rw [hacc]
    linarith
  · rw [hacc]
    linarith

/-- Model state used to instantiate the C6 witness: a three-row test
split with binary labels. -/
def modelW : Model :=
  { data := dfW, x_test := [[1], [2], [3]], y_test := [1, 0, 1] }

/-- Constant-one predictor used to instantiate the C6 witness. -/
def predictW (m : List (List ℚ)) : List ℚ :=
  m.map (fun _ => 1)

/-- Witness for C6 on `modelW` with the constant-one predictor. -/
theorem claim_C6_witness :
    (Model.train predictW modelW).y_pred.length = modelW.x_test.length ∧
    (Model.train predictW modelW).accuracy =
      (((modelW.y_test.zip (predictW modelW.x_test)).countP
        (fun z => decide (z.1 = z.2)) : ℚ) / (modelW.y_test.length : ℚ)) * 100 ∧
    0 ≤ (Model.train predictW modelW).accuracy ∧
    (Model.train predictW modelW).accuracy ≤ 100 :=
  claim_C6 predictW modelW (fun m => List.length_map m _) (by decide)

/-- Auxiliary: a sum of pointwise sums splits. -/
lemma aux_sum_map_add {α : Type} (l : List α) (f g : α → ℕ) :
    (l.map (fun x => f x + g x)).sum = (l.map f).sum + (l.map g).sum := by
  induction l with
  | nil => rfl
  | cons a l ih =>
      simp only [List.map_cons, List.sum_cons, ih]
      omega

/-- Auxiliary: an indicator summed over a list missing its point is 0. -/
lemma aux_sum_ite_zero (c : ℚ) (k : ℕ) :
    ∀ l : List ℚ, c ∉ l → (l.map (fun b => if c = b then k else 0)).sum = 0 := by
  intro l
  induction l with
  | nil => intro _; rfl
  | cons a l ih =>
      intro hc
      simp only [List.mem_cons, not_or] at hc
      simp only [List.map_cons, List.sum_cons, if_neg hc.1, ih hc.2]

/-- Auxiliary: an indicator summed over a duplicate-free list containing
its point contributes exactly once. -/
lemma aux_sum_ite_eq (c : ℚ) (k : ℕ) :
    ∀ l : List ℚ, l.Nodup → c ∈ l →
      (l.map (fun b => if c = b then k else 0)).sum = k := by
  intro l
  induction l with
  | nil => intro _ hc; cases hc
  | cons a l ih =>
      intro hl hc
      rw [List.nodup_cons] at hl
      rcases List.mem_cons.mp hc with rfl | h
      · simp only [List.map_cons, List.sum_cons, if_pos rfl]
        rw [aux_sum_ite_zero c k l hl.1]
        simp
      · have hne : c ≠ a := fun he => hl.1 (he ▸ h)
        simp only [List.map_cons, List.sum_cons, if_neg hne]
        rw [ih hl.2 h]
        simp

/-- Auxiliary: one observed pair falls in exactly one cell of the label
grid. -/
lemma aux_cell_step (L : List ℚ) (hL : L.Nodup) (z : ℚ × ℚ)
    (h1 : z.1 ∈ L) (h2 : z.2 ∈ L) :
    (L.map (fun a =>
      (L.map (fun b => if z.1 = a ∧ z.2 = b then 1 else 0)).sum)).sum = 1 := by
  have hfun : ∀ a ∈ L,
      (L.map (fun b => if z.1 = a ∧ z.2 = b then 1 else 0)).sum =
        if z.1 = a then 1 else 0 := by
    intro a _
    by_cases h : z.1 = a
    · simp only [h, true_and, if_pos]
      exact aux_sum_ite_eq z.2 1 L hL h2
    · simp only [h, false_and, if_false]
      simp
  rw [List.map_congr_left hfun]
  exact aux_sum_ite_eq z.1 1 L hL h1

/-- Auxiliary: summing every cell of the label grid counts every observed
pair exactly once. -/
lemma aux_cellTotal (L : List ℚ) (hL : L.Nodup) :
    ∀ zs : List (ℚ × ℚ), (∀ z ∈ zs, z.1 ∈ L ∧ z.2 ∈ L) →
      (L.map (fun a => (L.map (fun b =>
        zs.countP (fun z => decide (z.1 = a ∧ z.2 = b)))).sum)).sum = zs.length := by
  intro zs
  induction zs with
  | nil => intro _; simp
  | cons z zs ih =>
      intro hz
      have hmem := hz z (List.mem_cons_self z zs)
      have hrest : ∀ w ∈ zs, w.1 ∈ L ∧ w.2 ∈ L :=
        fun w hw => hz w (List.mem_cons_of_mem z hw)
      simp only [List.countP_cons, decide_eq_true_eq]
      have hsplit : ∀ a ∈ L,
          (L.map (fun b => zs.countP (fun w => decide (w.1 = a ∧ w.2 = b)) +
            if z.1 = a ∧ z.2 = b then 1 else 0)).sum =
          (L.map (fun b => zs.countP (fun w => decide (w.1 = a ∧ w.2 = b)))).sum +
            (L.map (fun b => if z.1 = a ∧ z.2 = b then 1 else 0)).sum :=
        fun a _ => aux_sum_map_add L _ _
      rw [List.map_congr_left hsplit, aux_sum_map_add L _ _, ih hrest,
        aux_cell_step L hL z hmem.1 hmem.2, List.length_cons]

/-- C7: the confusion matrix is square with side length the number of
distinct observed label values, and its cells sum to the number of test
rows. -/
theorem claim_C7 (y_true y_pred : List ℚ) (hlen : y_true.length = y_pred.length) :
    (confusion_matrix y_true y_pred).length = ((y_true ++ y_pred).dedup).length ∧
    (∀ row ∈ confusion_matrix y_true y_pred,
      row.length = (confusion_matrix y_true y_pred).length) ∧
    ((confusion_matrix y_true y_pred).map List.sum).sum = y_true.length := by
  have hL : (cmLabels y_true y_pred).Nodup := Finset.sort_nodup _ _
  have hlenL : (cmLabels y_true y_pred).length = ((y_true ++ y_pred).dedup).length := by
    simp only [cmLabels]
    rw [Finset.length_sort, List.card_toFinset]
  refine ⟨?_, ?_, ?_⟩
  · simpa [confusion_matrix] using hlenL
  · intro row hrow
    simp only [confusion_matrix, List.mem_map] at hrow
    obtain ⟨a, _, rfl⟩ := hrow
    simp [confusion_matrix]
  · have hmemb : ∀ z ∈ y_true.zip y_pred,
        z.1 ∈ cmLabels y_true y_pred ∧ z.2 ∈ cmLabels y_true y_pred := by
      intro z hz
      obtain ⟨a, b⟩ := z
      have hab := List.of_mem_zip hz
      constructor
      · simp only [cmLabels, Finset.mem_sort, List.mem_toFinset, List.mem_append]
        exact Or.inl hab.1
      · simp only [cmLabels, Finset.mem_sort, List.mem_toFinset, List.mem_append]
        exact Or.inr hab.2
    have htot := aux_cellTotal (cmLabels y_true y_pred) hL (y_true.zip y_pred) hmemb
    have hzlen : (y_true.zip y_pred).length = y_true.length := by
      rw [List.length_zip, hlen, min_self]
    simp only [confusion_matrix, List.map_map]
    rw [← hzlen]
    exact htot

/-- Witness for C7 at concrete truth and prediction vectors. -/
theorem claim_C7_witness :
    (confusion_matrix [1, 0, 1] [1, 1, 1]).length =
      ((([1, 0, 1] : List ℚ) ++ [1, 1, 1]).dedup).length ∧
    (∀ row ∈ confusion_matrix [1, 0, 1] [1, 1, 1],
      row.length = (confusion_matrix [1, 0, 1] [1, 1, 1]).length) ∧
    ((confusion_matrix [1, 0, 1] [1, 1, 1]).map List.sum).sum =
      ([1, 0, 1] : List ℚ).length :=
  claim_C7 [1, 0, 1] [1, 1, 1] rfl

/-- C10: the accuracy printed by `print("Accuracy: %d" % ...)` is the
percentage truncated to an integer, while the model attribute persisted
into the result row keeps the full value; whenever the percentage is not
an integer the two differ. -/
theorem claim_C10 (y_true y_pred : List ℚ) (run : ℕ) (t : ℚ)
    (hden : (accuracy_score y_true y_pred * 100).den ≠ 1) :
    pyFormatD (accuracy_score y_true y_pred * 100) =
      ⌊accuracy_score y_true y_pred * 100⌋ ∧
    (results_arr run (accuracy_score y_true y_pred * 100) t).getD 1 0 =
      accuracy_score y_true y_pred * 100 ∧
    ((pyFormatD (accuracy_score y_true y_pred * 100) : ℚ) ≠
      accuracy_score y_true y_pred * 100) := by
  have ha : 0 ≤ accuracy_score y_true y_pred * 100 :=
    mul_nonneg (div_nonneg (Nat.cast_nonneg _) (Nat.cast_nonneg _)) (by norm_num)
  refine ⟨?_, rfl, ?_⟩
  · simp only [pyFormatD, if_pos ha]
  · intro heq
    have hd := congrArg Rat.den heq
    rw [Rat.den_intCast] at hd
    exact hden hd.symm

/-- Witness for C10 at truth `[0, 1, 1]` and prediction `[0, 0, 1]`,
whose accuracy percentage is `200/3`. -/
theorem claim_C10_witness :
    pyFormatD (accuracy_score [0, 1, 1] [0, 0, 1] * 100) =
      ⌊accuracy_score [0, 1, 1] [0, 0, 1] * 100⌋ ∧
    (results_arr 0 (accuracy_score [0, 1, 1] [0, 0, 1] * 100) 1).getD 1 0 =
      accuracy_score [0, 1, 1] [0, 0, 1] * 100 ∧
    ((pyFormatD (accuracy_score [0, 1, 1] [0, 0, 1] * 100) : ℚ) ≠
      accuracy_score [0, 1, 1] [0, 0, 1] * 100) :=
  claim_C10 [0, 1, 1] [0, 0, 1] 0 1
    (by norm_num [accuracy_score, List.zip, List.zipWith, List.countP, List.countP.go])
